import Mathlib

/-!
Verification development for the woos-nwn-parser combat-log analytics engine.

Each Python function named in the claims is shallow-embedded as a Lean
definition carrying the same name.  Machine integers are modelled as ℤ or ℕ;
Python floats appearing in the immunity solver are modelled as IEEE-754
binary64 values — dyadic pairs m · 2 ^ e whose operations round the exact
result to 53 significand bits with round-to-nearest, ties-to-even (the
exponent is unbounded, which coincides with binary64 away from overflow and
subnormals, far beyond the ranges this program reaches); datetimes are
modelled as integer seconds, Python dicts are modelled as insertion-ordered
association lists, and fallible results are Option values.
-/

/-! ### Association lists with Python dict semantics

Python dict assignment keeps the position of an existing key and appends a
new key at the end; iteration follows insertion order.  lookupA and setA
mirror that behaviour on an association list. -/

def lookupA {α : Type} : List (String × α) → String → Option α
  | [], _ => none
  | (k, v) :: t, key => if k = key then some v else lookupA t key

def setA {α : Type} : List (String × α) → String → α → List (String × α)
  | [], key, v => [(key, v)]
  | (k, w) :: t, key, v => if k = key then (k, v) :: t else (k, w) :: setA t key v

theorem lookupA_setA_self {α : Type} (l : List (String × α)) (k : String) (v : α) :
    lookupA (setA l k v) k = some v := by
  induction l with
  | nil => simp [setA, lookupA]
  | cons hd t ih =>
    obtain ⟨k', w⟩ := hd
    by_cases h : k' = k
    · subst h; simp [setA, lookupA]
    · simp [setA, lookupA, h, ih]

theorem lookupA_setA_ne {α : Type} (l : List (String × α)) (k k' : String) (v : α)
    (h : k' ≠ k) : lookupA (setA l k v) k' = lookupA l k' := by
  induction l with
  | nil =>
    simp only [setA, lookupA]
    rw [if_neg (fun hh => h hh.symm)]
  | cons hd t ih =>
    obtain ⟨k0, w⟩ := hd
    by_cases h0 : k0 = k
    · subst h0
      simp only [setA, if_pos rfl, lookupA]
      rw [if_neg (fun hh => h hh.symm), if_neg (fun hh => h hh.symm)]
    · simp only [setA, if_neg h0, lookupA]
      by_cases h1 : k0 = k'
      · simp [h1]
      · simp [h1, ih]

theorem lookupA_some_mem {α : Type} (l : List (String × α)) (k : String) (v : α)
    (h : lookupA l k = some v) : (k, v) ∈ l := by
  induction l with
  | nil => simp [lookupA] at h
  | cons hd t ih =>
    obtain ⟨k0, w⟩ := hd
    by_cases h0 : k0 = k
    · subst h0
      simp [lookupA] at h
      simp [h]
    · simp [lookupA, h0] at h
      exact List.mem_cons_of_mem _ (ih h)

theorem mem_nodup_lookupA {α : Type} (l : List (String × α)) (k : String) (v : α)
    (hnd : (l.map Prod.fst).Nodup) (hmem : (k, v) ∈ l) : lookupA l k = some v := by
  induction l with
  | nil => simp at hmem
  | cons hd t ih =>
    obtain ⟨k0, w⟩ := hd
    simp only [List.map_cons, List.nodup_cons] at hnd
    rcases List.mem_cons.mp hmem with h | h
    · rw [Prod.ext_iff] at h
      obtain ⟨hk, hv⟩ := h
      simp only at hk hv
      subst hk
      simp [lookupA, hv]
    · have hk0 : k0 ≠ k := by
        intro he; subst he
        exact hnd.1 (List.mem_map.mpr ⟨(k0, v), h, rfl⟩)
      simp [lookupA, hk0, ih hnd.2 h]

/-! ### src/app/utils.py — immunity percentage solver

Python floats are IEEE-754 binary64 values.  Every double reaching the
solver is finite and far from both the overflow and the subnormal range, so
a double is modelled as a dyadic pair m · 2 ^ e with unbounded exponent,
and each arithmetic operation rounds its exact result to 53 significand
bits with round-to-nearest, ties-to-even — exactly the binary64 behaviour
on this input range.  All operations below are integer arithmetic, so the
kernel can evaluate the solver on concrete inputs; toRat gives the exact
rational value of a double and the bridge lemmas relate the integer forms
of floor and of the comparisons to that value. -/

set_option maxRecDepth 8000

set_option maxHeartbeats 1600000

/-- Fuel-based binary logarithm on ℕ: natLog2F fuel n is ⌊log2 n⌋ for
n ≥ 1 whenever fuel exceeds the bit length of n (256 suffices for every
number this development produces). -/
def natLog2F : ℕ → ℕ → ℕ
  | 0, _ => 0
  | fuel + 1, n => if n < 2 then 0 else natLog2F fuel (n / 2) + 1

def natLog2 (n : ℕ) : ℕ := natLog2F 256 n

/-- A binary64 value m · 2 ^ e.  Mantissas produced by rounding have at
most 53 bits; the exponent is unbounded, which agrees with binary64 on the
magnitudes this program manipulates. -/
structure F64 where
  m : ℤ
  e : ℤ
deriving DecidableEq

/-- Exact rational value of a double. -/
def F64.toRat (x : F64) : ℚ := (x.m : ℚ) * (2 : ℚ) ^ x.e

/-- Round the rational n / d (with d > 0) to the nearest double:
the quotient is scaled so that the mantissa has exactly 53 bits, then
rounded to nearest with ties to even. -/
def roundRatF (n : ℤ) (d : ℕ) : F64 :=
  if n = 0 then ⟨0, 0⟩ else
  let a : ℕ := n.natAbs
  let k0 : ℤ := (natLog2 a : ℤ) - (natLog2 d : ℤ)
  let k : ℤ :=
    if 0 ≤ k0 then (if d * 2 ^ k0.toNat ≤ a then k0 else k0 - 1)
    else (if d ≤ a * 2 ^ (-k0).toNat then k0 else k0 - 1)
  let e : ℤ := k - 52
  let num : ℕ := a * 2 ^ (-e).toNat
  let den : ℕ := d * 2 ^ e.toNat
  let q : ℕ := num / den
  let r : ℕ := num % den
  let mm : ℕ :=
    if 2 * r < den then q
    else if den < 2 * r then q + 1
    else if q % 2 = 0 then q else q + 1
  ⟨if n < 0 then -(mm : ℤ) else (mm : ℤ), e⟩

/-- Round the dyadic m · 2 ^ e to the nearest double. -/
def roundDyF (m e : ℤ) : F64 :=
  if 0 ≤ e then roundRatF (m * 2 ^ e.toNat) 1 else roundRatF m (2 ^ (-e).toNat)

/-- Conversion of a Python int to a double (exact for every value this
program produces, but rounded like CPython for completeness). -/
def intToF (n : ℤ) : F64 := roundRatF n 1

/-- Double multiplication: round the exact product. -/
def F64.mul (x y : F64) : F64 := roundDyF (x.m * y.m) (x.e + y.e)

/-- Double division: round the exact quotient. -/
def F64.div (x y : F64) : F64 :=
  let num : ℤ := if y.m < 0 then -x.m else x.m
  let den : ℕ := y.m.natAbs
  let d : ℤ := x.e - y.e
  if 0 ≤ d then roundRatF (num * 2 ^ d.toNat) den
  else roundRatF num (den * 2 ^ (-d).toNat)

/-- Double addition: align the exponents and round the exact sum. -/
def F64.add (x y : F64) : F64 :=
  roundDyF (x.m * 2 ^ (x.e - min x.e y.e).toNat +
    y.m * 2 ^ (y.e - min x.e y.e).toNat) (min x.e y.e)

/-- Double subtraction. -/
def F64.sub (x y : F64) : F64 := x.add ⟨-y.m, y.e⟩

/-- Double comparison x ≤ y (exact, like IEEE comparisons): align the
exponents and compare the integer mantissas. -/
def F64.ble (x y : F64) : Bool :=
  decide (x.m * 2 ^ (x.e - min x.e y.e).toNat ≤ y.m * 2 ^ (y.e - min x.e y.e).toNat)

/-- Double comparison x < y. -/
def F64.blt (x y : F64) : Bool :=
  decide (x.m * 2 ^ (x.e - min x.e y.e).toNat < y.m * 2 ^ (y.e - min x.e y.e).toNat)

/-- math.floor on a double: exact floor of its rational value (integer
floor division; ℤ division is floor division for a positive divisor). -/
def F64.floor (x : F64) : ℤ :=
  if 0 ≤ x.e then x.m * 2 ^ x.e.toNat else x.m / 2 ^ (-x.e).toNat

/-- Python int() on a double: truncation toward zero (Int.div is
T-division). -/
def F64.trunc (x : F64) : ℤ :=
  if 0 ≤ x.e then x.m * 2 ^ x.e.toNat else x.m.tdiv (2 ^ (-x.e).toNat)

/-- utils.compute_dmg_reduced: guard non-positive damage, guard
non-positive immunity (a float compared against the int 0), otherwise
max(1, math.floor(dmg_before_immunity * immunity)) with the int converted
to a double before the multiplication. -/
def compute_dmg_reduced (dmg_before_immunity : ℤ) (immunity : F64) : ℤ :=
  if dmg_before_immunity ≤ 0 then 0
  else if immunity.ble (intToF 0) then 0
  else max 1 (F64.floor ((intToF dmg_before_immunity).mul immunity))

def compute_dmg_after (dmg_before_immunity : ℤ) (immunity : F64) : ℤ :=
  max 0 (dmg_before_immunity - compute_dmg_reduced dmg_before_immunity immunity)

/-- utils.reverse_immunity: immunity_step is the double literal 0.01;
allowed candidates are i * immunity_step for i in range(int(1 /
immunity_step) + 1); the window bounds and the ratio are double
arithmetic; a candidate is kept when it lies in the closed window and
compute_dmg_reduced reproduces dmg_reduced. -/
def reverse_immunity (dmg_after_immunity : ℤ) (dmg_reduced : ℤ) : List F64 :=
  let immunity_step : F64 := roundRatF 1 100
  let allowed_immunities : List F64 :=
    (List.range (((intToF 1).div immunity_step).trunc.toNat + 1)).map
      (fun (i : ℕ) => (intToF (i : ℤ)).mul immunity_step)
  let dmg_before_immunity := dmg_after_immunity + dmg_reduced
  if dmg_before_immunity ≤ 0 then [intToF 0]
  else if dmg_reduced ≤ 0 then [intToF 0]
  else
    let ratio : F64 := (intToF dmg_reduced).div (intToF dmg_before_immunity)
    let min_immunity : F64 := ratio.sub ((intToF 1).mul immunity_step)
    let max_immunity : F64 := ratio.add ((intToF 1).mul immunity_step)
    allowed_immunities.filter (fun immunity =>
      min_immunity.ble immunity && immunity.ble max_immunity &&
        decide (compute_dmg_reduced dmg_before_immunity immunity = dmg_reduced))

/-- utils.pick_immunity: None on an empty list, otherwise
int(min(matches) * 100) — Python min keeps the first element under ties
and the final int() truncates the double product toward zero. -/
def pick_immunity (ms : List F64) : Option ℤ :=
  match ms with
  | [] => none
  | m :: rest =>
    some (((rest.foldl (fun acc x => if x.blt acc then x else acc) m).mul
      (intToF 100)).trunc)

def calculate_immunity_percentage (max_damage : ℤ) (max_absorbed : ℤ) : Option ℤ :=
  if max_damage ≤ 0 then none
  else if max_absorbed ≤ 0 then some 0
  else pick_immunity (reverse_immunity max_damage max_absorbed)

/-! ### Bridge lemmas between the integer forms and the rational value -/

theorem F64.toRat_shift (x : F64) (e : ℤ) (h : e ≤ x.e) :
    x.toRat = ((x.m * 2 ^ (x.e - e).toNat : ℤ) : ℚ) * (2 : ℚ) ^ e := by
  unfold F64.toRat
  conv_lhs => rw [show x.e = x.e - e + e by omega]
  rw [zpow_add₀ (by norm_num : (2 : ℚ) ≠ 0), ← mul_assoc]
  congr 1
  push_cast
  rw [← zpow_natCast (2 : ℚ) (x.e - e).toNat,
    Int.toNat_of_nonneg (show (0 : ℤ) ≤ x.e - e by omega)]

theorem F64.toRat_of_neg (x : F64) (h : x.e < 0) :
    x.toRat = (x.m : ℚ) / ((2 ^ (-x.e).toNat : ℕ) : ℚ) := by
  unfold F64.toRat
  conv_lhs => rw [show x.e = -(((-x.e).toNat : ℕ) : ℤ) by omega]
  rw [zpow_neg, zpow_natCast]
  push_cast
  ring

theorem F64.floor_eq (x : F64) : x.floor = ⌊x.toRat⌋ := by
  unfold F64.floor
  by_cases h : 0 ≤ x.e
  · rw [if_pos h, F64.toRat_shift x 0 h, zpow_zero, mul_one, Int.floor_intCast,
      sub_zero]
  · push_neg at h
    rw [if_neg (not_le.mpr h), F64.toRat_of_neg x h, Rat.floor_intCast_div_natCast]
    norm_num

theorem F64.ble_iff (x y : F64) : x.ble y = true ↔ x.toRat ≤ y.toRat := by
  unfold F64.ble
  rw [decide_eq_true_eq,
    F64.toRat_shift x (min x.e y.e) (min_le_left _ _),
    F64.toRat_shift y (min x.e y.e) (min_le_right _ _)]
  have hpos : (0 : ℚ) < (2 : ℚ) ^ (min x.e y.e) := zpow_pos (by norm_num) _
  constructor
  · intro h
    exact mul_le_mul_of_nonneg_right (Int.cast_le.mpr h) hpos.le
  · intro h
    exact Int.cast_le.mp (le_of_mul_le_mul_right h hpos)

/-- C1 fails on the code: with before = 200 and pct = 29 the code shaves
57 points (after = 200 − 57 = 143), yet calculate_immunity_percentage
(143, 57) returns some 28 — reverse_immunity finds exactly the double
0.29, and int(0.29 * 100) truncates 28.999999999999996 to 28 — and 28
does not reproduce the reduction: compute_dmg_reduced (200, 0.28) = 56 ≠
57.  Reading the claim literally (before passed as the first argument of
calculate_immunity_percentage), before = 100 and pct = 50 give reduced =
50 and calculate_immunity_percentage (100, 50) = none, against the claim
that some verifying v is returned. -/
theorem immunity_round_trip_failing :
    compute_dmg_reduced 200 ((intToF 29).div (intToF 100)) = 57 ∧
    calculate_immunity_percentage (200 - 57) 57 = some 28 ∧
    compute_dmg_reduced 200 ((intToF 28).div (intToF 100)) = 56 ∧
    compute_dmg_reduced 100 ((intToF 50).div (intToF 100)) = 50 ∧
    calculate_immunity_percentage 100 50 = none := by
  refine ⟨by decide, by decide, by decide, by decide, by decide⟩

/-- C7 counterexample: at before = 500 with the double 0.29 the code
returns max(1, floor(fl(500 · 0.29))) = 145, while the exact value of the
double 0.29 is 5224175567749775 / 2^54 and the claimed real-arithmetic
formula gives max(1, ⌊500 · (5224175567749775 / 2^54)⌋) = 144; at before
= 0 with immunity 1/2 the dmg_before_immunity ≤ 0 guard returns 0 while
the claimed formula (applying whenever pct > 0) gives max(1, ⌊0⌋) = 1. -/
theorem compute_dmg_reduced_formula_counterexample :
    ¬ (compute_dmg_reduced 500 (roundRatF 29 100) =
        max 1 ⌊(500 : ℚ) * (roundRatF 29 100).toRat⌋) ∧
    ¬ (compute_dmg_reduced 0 (roundRatF 1 2) =
        max 1 ⌊(0 : ℚ) * (roundRatF 1 2).toRat⌋) := by
  constructor
  · intro h
    have h1 : compute_dmg_reduced 500 (roundRatF 29 100) = 145 := by decide
    have hv : (roundRatF 29 100).toRat = (5224175567749775 : ℚ) / 2 ^ 54 := by
      rw [show roundRatF 29 100 = ⟨5224175567749775, -54⟩ from by decide]
      unfold F64.toRat
      norm_num
    have hfl : ⌊(500 : ℚ) * (roundRatF 29 100).toRat⌋ = 144 := by
      rw [hv, Int.floor_eq_iff]
      constructor <;> norm_num
    rw [h1, hfl] at h
    exact absurd h (by decide)
  · intro h
    rw [show compute_dmg_reduced 0 (roundRatF 1 2) = 0 from by decide,
      zero_mul, Int.floor_zero] at h
    exact absurd h (by decide)

/-- C7 (amended): for positive before and a double pct with positive
value, compute_dmg_reduced (before, pct) equals max(1, ⌊value of the
rounded double product fl(before · pct)⌋) — the floor applies to the
IEEE-754 product, not to the exact real product — and is at least 1, so
at least one point is shaved off; it equals 0 when the value of pct is ≤
0 or before ≤ 0. -/
theorem compute_dmg_reduced_formula (d : ℤ) (p : F64) :
    (0 < d → 0 < p.toRat →
      compute_dmg_reduced d p = max 1 ⌊((intToF d).mul p).toRat⌋ ∧
      1 ≤ compute_dmg_reduced d p) ∧
    (p.toRat ≤ 0 ∨ d ≤ 0 → compute_dmg_reduced d p = 0) := by
  have hz : (intToF 0).toRat = 0 := by
    rw [show intToF 0 = ⟨0, 0⟩ from by decide]
    unfold F64.toRat
    norm_num
  constructor
  · intro hd hp
    have hble : ¬ (p.ble (intToF 0) = true) := by
      rw [F64.ble_iff, hz]
      exact not_le.mpr hp
    unfold compute_dmg_reduced
    rw [if_neg (by omega : ¬ d ≤ 0), if_neg hble, F64.floor_eq]
    exact ⟨rfl, le_max_left _ _⟩
  · intro h
    rcases h with h | h
    · unfold compute_dmg_reduced
      by_cases hd : d ≤ 0
      · rw [if_pos hd]
      · rw [if_neg hd, if_pos ((F64.ble_iff p (intToF 0)).mpr (by rw [hz]; exact h))]
    · unfold compute_dmg_reduced
      rw [if_pos h]

/-- Witness for the amended C7 theorem at d = 10 and pct the double 1.0. -/
theorem compute_dmg_reduced_formula_witness :
    (0 : ℤ) < 10 ∧ (0 : ℚ) < (intToF 1).toRat ∧
      (compute_dmg_reduced 10 (intToF 1) =
          max 1 ⌊((intToF 10).mul (intToF 1)).toRat⌋ ∧
        1 ≤ compute_dmg_reduced 10 (intToF 1)) := by
  have h1 : (intToF 1).toRat = 1 := by
    rw [show intToF 1 = ⟨4503599627370496, -52⟩ from by decide]
    unfold F64.toRat
    norm_num
  have hp : (0 : ℚ) < (intToF 1).toRat := by rw [h1]; norm_num
  exact ⟨by decide, hp, (compute_dmg_reduced_formula 10 (intToF 1)).1 (by decide) hp⟩

/-- C10: there are inputs with positive max_damage and positive
max_absorbed on which calculate_immunity_percentage returns none, for
example max_damage = 1 and max_absorbed = 100, where the verified
candidate window of reverse_immunity is empty and pick_immunity maps the
empty list to none. -/
theorem calculate_immunity_none_possible :
    ∃ d a : ℤ, 0 < d ∧ 0 < a ∧ calculate_immunity_percentage d a = none := by
  refine ⟨1, 100, by decide, by decide, by decide⟩

/-! ### src/app/models.py — EnemyAC defense-threshold tracker

EnemyAC keeps every retained hit total plus a single maximum miss total.
record_hit, record_miss, min_hit and get_ac_estimate are translated from the
dataclass; acHitOk is the shared None-or-strictly-greater test written out in
both record methods. -/

structure EnemyAC where
  name : String
  max_miss : Option ℤ
  _hits : List ℤ
deriving DecidableEq

def acHitOk (max_miss : Option ℤ) (total : ℤ) : Bool :=
  match max_miss with
  | none => true
  | some m => decide (m < total)

def EnemyAC.min_hit (s : EnemyAC) : Option ℤ :=
  match s._hits with
  | [] => none
  | h :: t => some (t.foldl min h)

def EnemyAC.record_hit (s : EnemyAC) (total : ℤ) (was_nat20 : Bool) : EnemyAC :=
  if was_nat20 then s
  else if acHitOk s.max_miss total then { s with _hits := s._hits ++ [total] }
  else s

def EnemyAC.record_miss (s : EnemyAC) (total : ℤ) (was_nat1 : Bool) : EnemyAC :=
  if was_nat1 then s
  else if acHitOk s.max_miss total then
    { s with max_miss := some total, _hits := s._hits.filter (fun h => decide (total < h)) }
  else s

def EnemyAC.get_ac_estimate (s : EnemyAC) : String :=
  match s.min_hit, s.max_miss with
  | some mh, some mm =>
    if mm + 1 = mh then toString mh
    else if mm < mh then toString (mm + 1) ++ "-" ++ toString mh
    else "~" ++ toString mh
  | some mh, none => "≤" ++ toString mh
  | none, some mm => ">" ++ toString mm
  | none, none => "-"

inductive ACOp where
  | hit (total : ℤ) (was_nat20 : Bool)
  | miss (total : ℤ) (was_nat1 : Bool)

def applyACOp (s : EnemyAC) : ACOp → EnemyAC
  | ACOp.hit t n => s.record_hit t n
  | ACOp.miss t n => s.record_miss t n

def runACOps (name : String) (ops : List ACOp) : EnemyAC :=
  ops.foldl applyACOp ⟨name, none, []⟩

def ACInv (s : EnemyAC) : Prop :=
  ∀ m, s.max_miss = some m → ∀ h ∈ s._hits, m < h

theorem record_hit_inv (s : EnemyAC) (t : ℤ) (n : Bool) (hs : ACInv s) :
    ACInv (s.record_hit t n) := by
  unfold EnemyAC.record_hit
  by_cases hn : n = true
  · simp [hn]; exact hs
  · simp only [hn, Bool.false_eq_true, if_false]
    cases hok : acHitOk s.max_miss t with
    | false => simp [hs]
    | true =>
      simp only [if_true]
      intro m hm h hh
      simp only at hm
      rcases List.mem_append.mp hh with h1 | h1
      · exact hs m hm h h1
      · have : h = t := List.mem_singleton.mp h1
        subst this
        unfold acHitOk at hok
        rw [hm] at hok
        exact of_decide_eq_true hok

theorem record_miss_inv (s : EnemyAC) (t : ℤ) (n : Bool) (hs : ACInv s) :
    ACInv (s.record_miss t n) := by
  unfold EnemyAC.record_miss
  by_cases hn : n = true
  · simp [hn]; exact hs
  · simp only [hn, Bool.false_eq_true, if_false]
    cases hok : acHitOk s.max_miss t with
    | false => simp [hs]
    | true =>
      simp only [if_true]
      intro m hm h hh
      simp only [Option.some.injEq] at hm
      subst hm
      exact of_decide_eq_true (List.mem_filter.mp hh).2

theorem foldl_acops_inv (ops : List ACOp) (s : EnemyAC) (hs : ACInv s) :
    ACInv (ops.foldl applyACOp s) := by
  induction ops generalizing s with
  | nil => exact hs
  | cons op rest ih =>
    apply ih
    cases op with
    | hit t n => exact record_hit_inv s t n hs
    | miss t n => exact record_miss_inv s t n hs

/-- C5: after any sequence of record_hit and record_miss calls starting from a
fresh EnemyAC, every retained hit total is strictly greater than the current
max_miss when one is set; and whenever record_miss raises max_miss (previous
max_miss absent or smaller), the surviving hit list is exactly the previous
hits filtered to those strictly above the new maximum. -/
theorem enemy_ac_invariant (name : String) (ops : List ACOp) :
    (∀ m, (runACOps name ops).max_miss = some m →
      ∀ h ∈ (runACOps name ops)._hits, m < h) ∧
    (∀ (s : EnemyAC) (t : ℤ),
      (s.max_miss = none ∨ ∃ m, s.max_miss = some m ∧ m < t) →
      (s.record_miss t false).max_miss = some t ∧
      (s.record_miss t false)._hits = s._hits.filter (fun h => decide (t < h))) := by
  constructor
  · exact foldl_acops_inv ops ⟨name, none, []⟩ (fun m hm => by simp at hm)
  · intro s t hraise
    have hok : acHitOk s.max_miss t = true := by
      rcases hraise with h | ⟨m, hm, hlt⟩
      · unfold acHitOk; rw [h]
      · unfold acHitOk; rw [hm]; exact decide_eq_true hlt
    unfold EnemyAC.record_miss
    rw [if_neg (by simp), if_pos hok]
    exact ⟨rfl, rfl⟩

/-- Witness for C5: the sequence hit 21, miss 15, hit 16 keeps only hits above
the miss maximum 15, and a raising miss on a concrete tracker filters the hit
list in the same call. -/
theorem enemy_ac_invariant_witness :
    ((∀ h ∈ (runACOps "Goblin" [ACOp.hit 21 false, ACOp.miss 15 false,
        ACOp.hit 16 false])._hits, (15 : ℤ) < h) ∧
      ((⟨"Goblin", some 10, [12, 18]⟩ : EnemyAC).record_miss 14 false).max_miss = some 14 ∧
      ((⟨"Goblin", some 10, [12, 18]⟩ : EnemyAC).record_miss 14 false)._hits =
        [12, 18].filter (fun h => decide ((14 : ℤ) < h))) :=
  ⟨(enemy_ac_invariant "Goblin" [ACOp.hit 21 false, ACOp.miss 15 false,
      ACOp.hit 16 false]).1 15 (by decide),
    (enemy_ac_invariant "Goblin" []).2 ⟨"Goblin", some 10, [12, 18]⟩ 14
      (Or.inr ⟨10, rfl, by decide⟩)⟩

/-- C4: get_ac_estimate returns the exact value when max_miss + 1 equals the
minimum hit, the inclusive range when max_miss is below the minimum hit, the
approximate marker when max_miss reaches or exceeds the minimum hit, the
one-sided bounds when only one side has data, the empty marker with no data;
and the sequences hit 21, miss 15, hit 16 and hit 18, miss 14 estimate to
"16" and "15-18" respectively. -/
theorem get_ac_estimate_cases :
    (∀ (s : EnemyAC) (mh mm : ℤ), s.min_hit = some mh → s.max_miss = some mm →
      (mm + 1 = mh → s.get_ac_estimate = toString mh) ∧
      (mm + 1 ≠ mh → mm < mh →
        s.get_ac_estimate = toString (mm + 1) ++ "-" ++ toString mh) ∧
      (mh ≤ mm → s.get_ac_estimate = "~" ++ toString mh)) ∧
    (∀ (s : EnemyAC) (mh : ℤ), s.min_hit = some mh → s.max_miss = none →
      s.get_ac_estimate = "≤" ++ toString mh) ∧
    (∀ (s : EnemyAC) (mm : ℤ), s.min_hit = none → s.max_miss = some mm →
      s.get_ac_estimate = ">" ++ toString mm) ∧
    (∀ s : EnemyAC, s.min_hit = none → s.max_miss = none →
      s.get_ac_estimate = "-") ∧
    (runACOps "Goblin" [ACOp.hit 21 false, ACOp.miss 15 false,
      ACOp.hit 16 false]).get_ac_estimate = "16" ∧
    (runACOps "Goblin" [ACOp.hit 18 false, ACOp.miss 14 false]).get_ac_estimate = "15-18" := by
  refine ⟨?_, ?_, ?_, ?_, by decide, by decide⟩
  · intro s mh mm hmh hmm
    unfold EnemyAC.get_ac_estimate
    simp only [hmh, hmm]
    refine ⟨?_, ?_, ?_⟩
    · intro he; rw [if_pos he]
    · intro hne hlt; rw [if_neg hne, if_pos hlt]
    · intro hle
      rw [if_neg (by omega : ¬ (mm + 1 = mh)), if_neg (not_lt.mpr hle)]
  · intro s mh hmh hmm
    unfold EnemyAC.get_ac_estimate
    simp only [hmh, hmm]
  · intro s mm hmh hmm
    unfold EnemyAC.get_ac_estimate
    simp only [hmh, hmm]
  · intro s hmh hmm
    unfold EnemyAC.get_ac_estimate
    simp only [hmh, hmm]

/-- Witness for C4: the general case split applied at concrete trackers. -/
theorem get_ac_estimate_cases_witness :
    ((⟨"g", some 15, [16, 21]⟩ : EnemyAC).get_ac_estimate = toString (16 : ℤ) ∧
      (⟨"g", some 14, [18]⟩ : EnemyAC).get_ac_estimate =
        toString ((14 : ℤ) + 1) ++ "-" ++ toString (18 : ℤ) ∧
      (⟨"g", some 20, [18]⟩ : EnemyAC).get_ac_estimate = "~" ++ toString (18 : ℤ) ∧
      (⟨"g", none, [18]⟩ : EnemyAC).get_ac_estimate = "≤" ++ toString (18 : ℤ) ∧
      (⟨"g", some 14, []⟩ : EnemyAC).get_ac_estimate = ">" ++ toString (14 : ℤ) ∧
      (⟨"g", none, []⟩ : EnemyAC).get_ac_estimate = "-") :=
  ⟨((get_ac_estimate_cases.1 ⟨"g", some 15, [16, 21]⟩ 16 15 (by decide) rfl).1 (by decide)),
    ((get_ac_estimate_cases.1 ⟨"g", some 14, [18]⟩ 18 14 (by decide) rfl).2.1
      (by decide) (by decide)),
    ((get_ac_estimate_cases.1 ⟨"g", some 20, [18]⟩ 18 20 (by decide) rfl).2.2 (by decide)),
    (get_ac_estimate_cases.2.1 ⟨"g", none, [18]⟩ 18 (by decide) rfl),
    (get_ac_estimate_cases.2.2.1 ⟨"g", some 14, []⟩ 14 (by decide) rfl),
    (get_ac_estimate_cases.2.2.2.1 ⟨"g", none, []⟩ (by decide) rfl)⟩

/-! ### src/app/parser.py — attack branch of LogParser.parse_line

After one of the three attack grammars matches, parse_line classifies the
lowercased outcome text with Python substring tests and updates the EnemyAC
tracker of the target: record_hit (total) — with no natural-20 flag — for
hits, record_miss (total, was_nat1) for misses, where was_nat1 is roll == 1.
startsWithL and containsSubL implement the Python substring operator on
character lists.  parse_line_attack_ac embeds parser.py lines 250 to 270
applied to the EnemyAC entry of the matched target. -/

def startsWithL : List Char → List Char → Bool
  | [], _ => true
  | _ :: _, [] => false
  | a :: as, b :: bs => a == b && startsWithL as bs

def containsSubL : List Char → List Char → Bool
  | [], sub => startsWithL sub []
  | c :: t, sub => startsWithL sub (c :: t) || containsSubL t sub

def pyInStr (sub s : String) : Bool :=
  containsSubL s.toList sub.toList

def parse_line_attack_ac (outcome : String) (roll total : ℤ) (ac : EnemyAC) : EnemyAC :=
  if pyInStr "hit" outcome && !(pyInStr "miss" outcome)
      && !(pyInStr "attacker miss chance" outcome) then
    ac.record_hit total false
  else if pyInStr "miss" outcome || pyInStr "parried" outcome
      || pyInStr "resisted" outcome || pyInStr "attacker miss chance" outcome then
    ac.record_miss total (decide (roll = 1))
  else ac

/-- C2 fails on the code: a hit whose natural roll is 20 appends its total to
the retained-hits list because parse_line calls record_hit without the
natural-20 flag, and a concealment miss-chance outcome raises max_miss
because it is routed to record_miss; only the natural-1 miss leaves the
tracker unchanged.  The first two conjuncts evaluate the attack branch at
the failing inputs, the third proves the natural-1 part that does hold. -/
theorem parse_line_nat20_conceal_update :
    (parse_line_attack_ac "hit" 20 25 ⟨"Goblin", none, []⟩)._hits = [25] ∧
    (parse_line_attack_ac "attacker miss chance: 50%" 19 79
      ⟨"Hero", none, []⟩).max_miss = some 79 ∧
    (∀ ac : EnemyAC, parse_line_attack_ac "miss" 1 6 ac = ac) := by
  refine ⟨by decide, by decide, ?_⟩
  intro ac
  unfold parse_line_attack_ac
  rw [if_neg (by decide), if_pos (by decide)]
  unfold EnemyAC.record_miss
  rw [if_pos (by decide)]

/-! ### src/app/storage.py — DataStore DPS aggregation and immunity records

Datetimes are modelled as integer seconds; timedeltas therefore become
integers and total_seconds is the identity.  dps_data and immunity_data are
the insertion-ordered dicts of the class, last_damage_timestamp the shared
global timestamp.  The float dps value is an exact rational.  Python
list.sort with key dps and reverse True is a stable descending sort, which
insertRowDesc and sortRowsDesc implement exactly. -/

structure DpsEntry where
  total_damage : ℤ
  first_timestamp : ℤ
  damage_by_type : List (String × ℤ)
deriving DecidableEq

structure DpsRow where
  character : String
  total_damage : ℤ
  time_seconds : ℤ
  dps : ℚ
deriving DecidableEq

structure ImmunityRecord where
  max_immunity : ℤ
  max_damage : ℤ
  sample_count : ℤ
deriving DecidableEq

structure DataStore where
  dps_data : List (String × DpsEntry)
  last_damage_timestamp : Option ℤ
  immunity_data : List (String × List (String × ImmunityRecord))
deriving DecidableEq

def addToTypeMap (m : List (String × ℤ)) (dt : String) (amt : ℤ) : List (String × ℤ) :=
  let m1 := match lookupA m dt with
    | none => setA m dt 0
    | some _ => m
  setA m1 dt ((lookupA m1 dt).getD 0 + amt)

def update_dps_data (s : DataStore) (character : String) (damage_amount : ℤ)
    (timestamp : ℤ) (damage_types : List (String × ℤ)) : DataStore :=
  let last := match s.last_damage_timestamp with
    | none => some timestamp
    | some l => if l < timestamp then some timestamp else some l
  let entry : DpsEntry := match lookupA s.dps_data character with
    | none =>
      { total_damage := damage_amount
        first_timestamp := timestamp
        damage_by_type := [] }
    | some e =>
      { e with
        total_damage := e.total_damage + damage_amount
        first_timestamp :=
          if timestamp < e.first_timestamp then timestamp else e.first_timestamp }
  let entry2 := if damage_types.isEmpty then entry
    else { entry with damage_by_type :=
      damage_types.foldl (fun m p => addToTypeMap m p.1 p.2) entry.damage_by_type }
  { s with dps_data := setA s.dps_data character entry2, last_damage_timestamp := last }

def insertRowDesc (r : DpsRow) : List DpsRow → List DpsRow
  | [] => [r]
  | y :: ys => if r.dps < y.dps then y :: insertRowDesc r ys else r :: y :: ys

def sortRowsDesc : List DpsRow → List DpsRow
  | [] => []
  | x :: xs => insertRowDesc x (sortRowsDesc xs)

def minFirstTimestamp (l : List (String × DpsEntry)) : ℤ :=
  match l.map (fun p => p.2.first_timestamp) with
  | [] => 0
  | x :: xs => xs.foldl min x

def get_dps_data (s : DataStore) (time_tracking_mode : String)
    (global_start_time : Option ℤ) : List DpsRow :=
  if s.dps_data.isEmpty then []
  else if time_tracking_mode = "global" then
    let g0 : ℤ := match global_start_time with
      | some g => g
      | none => minFirstTimestamp s.dps_data
    match s.last_damage_timestamp with
    | none => []
    | some last =>
      sortRowsDesc (s.dps_data.map (fun p =>
        { character := p.1
          total_damage := p.2.total_damage
          time_seconds := last - g0
          dps := (p.2.total_damage : ℚ) / ((max (last - g0) 1 : ℤ) : ℚ) }))
  else
    match s.last_damage_timestamp with
    | none => []
    | some last =>
      sortRowsDesc (s.dps_data.map (fun p =>
        { character := p.1
          total_damage := p.2.total_damage
          time_seconds := last - p.2.first_timestamp
          dps := (p.2.total_damage : ℚ) /
            ((max (last - p.2.first_timestamp) 1 : ℤ) : ℚ) }))

theorem mem_insertRowDesc (a r : DpsRow) (l : List DpsRow) :
    a ∈ insertRowDesc r l ↔ a = r ∨ a ∈ l := by
  induction l with
  | nil => simp [insertRowDesc]
  | cons y ys ih =>
    unfold insertRowDesc
    by_cases h : r.dps < y.dps
    · rw [if_pos h]
      simp only [List.mem_cons, ih]
      tauto
    · rw [if_neg h]
      simp only [List.mem_cons]

theorem mem_sortRowsDesc (a : DpsRow) (l : List DpsRow) :
    a ∈ sortRowsDesc l ↔ a ∈ l := by
  induction l with
  | nil => simp [sortRowsDesc]
  | cons x xs ih =>
    unfold sortRowsDesc
    rw [mem_insertRowDesc]
    simp only [List.mem_cons, ih]

/-- C6: in per-character mode with the global last-damage timestamp L set,
every character X with a dps_data entry e is reported with elapsed time
L minus the own first-damage timestamp of X, and with dps equal to the
total damage of X divided by that elapsed time floored at one second. -/
theorem get_dps_data_per_character (s : DataStore) (mode X : String)
    (e : DpsEntry) (L : ℤ)
    (hmode : mode ≠ "global")
    (hnd : (s.dps_data.map Prod.fst).Nodup)
    (hX : lookupA s.dps_data X = some e)
    (hL : s.last_damage_timestamp = some L) :
    (∃ row ∈ get_dps_data s mode none,
      row.character = X ∧ row.time_seconds = L - e.first_timestamp ∧
      row.dps = (e.total_damage : ℚ) / ((max (L - e.first_timestamp) 1 : ℤ) : ℚ)) ∧
    (∀ row ∈ get_dps_data s mode none, row.character = X →
      row.time_seconds = L - e.first_timestamp ∧
      row.dps = (e.total_damage : ℚ) / ((max (L - e.first_timestamp) 1 : ℤ) : ℚ)) := by
  have hne : ¬ s.dps_data.isEmpty = true := by
    cases hd : s.dps_data with
    | nil => rw [hd] at hX; simp [lookupA] at hX
    | cons a t => simp [hd]
  have hform : get_dps_data s mode none =
      sortRowsDesc (s.dps_data.map (fun p =>
        { character := p.1
          total_damage := p.2.total_damage
          time_seconds := L - p.2.first_timestamp
          dps := (p.2.total_damage : ℚ) /
            ((max (L - p.2.first_timestamp) 1 : ℤ) : ℚ) })) := by
    simp only [get_dps_data, hL]
    rw [if_neg hne, if_neg hmode]
  constructor
  · refine ⟨⟨X, e.total_damage, L - e.first_timestamp,
      (e.total_damage : ℚ) / ((max (L - e.first_timestamp) 1 : ℤ) : ℚ)⟩,
      ?_, rfl, rfl, rfl⟩
    rw [hform, mem_sortRowsDesc]
    exact List.mem_map.mpr ⟨(X, e), lookupA_some_mem _ _ _ hX, rfl⟩
  · intro row hrow hchar
    rw [hform, mem_sortRowsDesc] at hrow
    obtain ⟨p, hp, hfp⟩ := List.mem_map.mp hrow
    have hp1 : p.1 = X := by rw [← hfp] at hchar; exact hchar
    have hlp : lookupA s.dps_data X = some p.2 := by
      rw [← hp1]
      exact mem_nodup_lookupA _ _ _ hnd (by rw [Prod.mk.eta]; exact hp)
    rw [hX] at hlp
    have hpe : p.2 = e := by
      injection hlp with h
      exact h.symm
    rw [← hfp, hpe]
    exact ⟨rfl, rfl⟩

/-- Witness for C6 on a store where character A dealt 100 at time 0 and 100
at time 5. -/
theorem get_dps_data_per_character_witness :
    ("per_character" : String) ≠ "global" ∧
    (((update_dps_data (update_dps_data ⟨[], none, []⟩ "A" 100 0 [])
        "A" 100 5 []).dps_data.map Prod.fst).Nodup) ∧
    lookupA (update_dps_data (update_dps_data ⟨[], none, []⟩ "A" 100 0 [])
      "A" 100 5 []).dps_data "A" = some ⟨200, 0, []⟩ ∧
    (update_dps_data (update_dps_data ⟨[], none, []⟩ "A" 100 0 [])
      "A" 100 5 []).last_damage_timestamp = some 5 ∧
    ((∃ row ∈ get_dps_data (update_dps_data (update_dps_data ⟨[], none, []⟩
        "A" 100 0 []) "A" 100 5 []) "per_character" none,
      row.character = "A" ∧ row.time_seconds = 5 - (0 : ℤ) ∧
      row.dps = ((200 : ℤ) : ℚ) / ((max ((5 : ℤ) - 0) 1 : ℤ) : ℚ)) ∧
    (∀ row ∈ get_dps_data (update_dps_data (update_dps_data ⟨[], none, []⟩
        "A" 100 0 []) "A" 100 5 []) "per_character" none,
      row.character = "A" →
      row.time_seconds = 5 - (0 : ℤ) ∧
      row.dps = ((200 : ℤ) : ℚ) / ((max ((5 : ℤ) - 0) 1 : ℤ) : ℚ))) :=
  ⟨by decide, by decide, by decide, by decide,
    get_dps_data_per_character _ "per_character" "A" ⟨200, 0, []⟩ 5
      (by decide) (by decide) (by decide) (by decide)⟩

def dpsDemoStore : DataStore :=
  update_dps_data (update_dps_data (update_dps_data (update_dps_data
    ⟨[], none, []⟩ "CharacterA" 100 0 [("Physical", 100)])
    "CharacterA" 100 5 [("Physical", 100)])
    "CharacterB" 200 10 [("Fire", 200)])
    "CharacterB" 200 15 [("Fire", 200)]

/-- C3 fails on the code: after character A deals 100 at time 0 and 100 at
time 5 and character B afterwards deals 200 at time 10 and 200 at time 15,
per-character mode reports A with elapsed time 15 and dps 200 / 15, because
the row uses the global last-damage timestamp 15 rather than the last damage
of A; the claimed elapsed time 5 and dps 40 do not hold. -/
theorem dps_per_character_not_independent :
    ∃ row ∈ get_dps_data dpsDemoStore "per_character" none,
      row.character = "CharacterA" ∧ row.total_damage = 200 ∧
      row.time_seconds = 15 ∧ row.dps = 200 / 15 ∧
      ¬ (row.time_seconds = 5 ∧ row.dps = 40) := by
  have hdata : dpsDemoStore.dps_data =
      [("CharacterA", ⟨200, 0, [("Physical", 200)]⟩),
       ("CharacterB", ⟨400, 10, [("Fire", 400)]⟩)] := by decide
  have hlast : dpsDemoStore.last_damage_timestamp = some 15 := by decide
  have hform : get_dps_data dpsDemoStore "per_character" none =
      sortRowsDesc (dpsDemoStore.dps_data.map (fun p =>
        { character := p.1
          total_damage := p.2.total_damage
          time_seconds := 15 - p.2.first_timestamp
          dps := (p.2.total_damage : ℚ) /
            ((max ((15 : ℤ) - p.2.first_timestamp) 1 : ℤ) : ℚ) })) := by
    simp only [get_dps_data, hlast]
    rw [if_neg (by decide), if_neg (by decide)]
  refine ⟨⟨"CharacterA", 200, 15 - 0,
    ((200 : ℤ) : ℚ) / ((max ((15 : ℤ) - 0) 1 : ℤ) : ℚ)⟩, ?_, rfl, rfl, ?_, ?_, ?_⟩
  · rw [hform, mem_sortRowsDesc]
    refine List.mem_map.mpr ⟨("CharacterA", ⟨200, 0, [("Physical", 200)]⟩), ?_, rfl⟩
    rw [hdata]
    exact List.mem_cons_self _ _
  · decide
  · show ((200 : ℤ) : ℚ) / ((max ((15 : ℤ) - 0) 1 : ℤ) : ℚ) = 200 / 15
    rw [show (max ((15 : ℤ) - 0) 1 : ℤ) = 15 by decide]
    push_cast
    norm_num
  · rintro ⟨h5, -⟩
    exact absurd h5 (by decide)

def record_immunity (s : DataStore) (target damage_type : String)
    (immunity_points damage_dealt : ℤ) : DataStore :=
  let tmap0 := match lookupA s.immunity_data target with
    | none => []
    | some m => m
  let r0 : ImmunityRecord := match lookupA tmap0 damage_type with
    | none => ⟨0, 0, 0⟩
    | some r => r
  let r1 : ImmunityRecord := { r0 with sample_count := r0.sample_count + 1 }
  let r2 : ImmunityRecord := if r0.max_damage < damage_dealt then
      { r1 with max_damage := damage_dealt, max_immunity := immunity_points }
    else r1
  { s with immunity_data := setA s.immunity_data target (setA tmap0 damage_type r2) }

def get_immunity_for_target_and_type (s : DataStore) (target damage_type : String) :
    ImmunityRecord :=
  match lookupA s.immunity_data target with
  | some m =>
    match lookupA m damage_type with
    | some r => r
    | none => ⟨0, 0, 0⟩
  | none => ⟨0, 0, 0⟩

/-- C8: record_immunity increments sample_count, updates max_damage and
max_immunity together exactly when damage_dealt strictly exceeds the stored
max_damage, leaves both maxima unchanged otherwise, and never touches any
other (target, damage_type) pair. -/
theorem record_immunity_coupled (s : DataStore) (t dt : String) (ip dd : ℤ) :
    ((get_immunity_for_target_and_type (record_immunity s t dt ip dd) t dt).sample_count =
      (get_immunity_for_target_and_type s t dt).sample_count + 1) ∧
    ((get_immunity_for_target_and_type s t dt).max_damage < dd →
      (get_immunity_for_target_and_type (record_immunity s t dt ip dd) t dt).max_damage = dd ∧
      (get_immunity_for_target_and_type (record_immunity s t dt ip dd) t dt).max_immunity = ip) ∧
    (dd ≤ (get_immunity_for_target_and_type s t dt).max_damage →
      (get_immunity_for_target_and_type (record_immunity s t dt ip dd) t dt).max_damage =
        (get_immunity_for_target_and_type s t dt).max_damage ∧
      (get_immunity_for_target_and_type (record_immunity s t dt ip dd) t dt).max_immunity =
        (get_immunity_for_target_and_type s t dt).max_immunity) ∧
    (∀ t2 dt2 : String, (t2 = t → dt2 ≠ dt) →
      get_immunity_for_target_and_type (record_immunity s t dt ip dd) t2 dt2 =
        get_immunity_for_target_and_type s t2 dt2) := by
  have hnew : get_immunity_for_target_and_type (record_immunity s t dt ip dd) t dt =
      (if (get_immunity_for_target_and_type s t dt).max_damage < dd then
        (⟨ip, dd, (get_immunity_for_target_and_type s t dt).sample_count + 1⟩ : ImmunityRecord)
      else
        (⟨(get_immunity_for_target_and_type s t dt).max_immunity,
          (get_immunity_for_target_and_type s t dt).max_damage,
          (get_immunity_for_target_and_type s t dt).sample_count + 1⟩ : ImmunityRecord)) := by
    cases hl : lookupA s.immunity_data t with
    | none =>
      simp only [record_immunity, get_immunity_for_target_and_type, hl,
        lookupA_setA_self, lookupA]
      simp
    | some m =>
      cases hl2 : lookupA m dt with
      | none =>
        simp only [record_immunity, get_immunity_for_target_and_type, hl, hl2,
          lookupA_setA_self]
      | some r =>
        simp only [record_immunity, get_immunity_for_target_and_type, hl, hl2,
          lookupA_setA_self]
  refine ⟨?_, ?_, ?_, ?_⟩
  · rw [hnew]
    by_cases h : (get_immunity_for_target_and_type s t dt).max_damage < dd
    · rw [if_pos h]
    · rw [if_neg h]
  · intro h
    rw [hnew, if_pos h]
    exact ⟨rfl, rfl⟩
  · intro h
    rw [hnew, if_neg (not_lt.mpr h)]
    exact ⟨rfl, rfl⟩
  · intro t2 dt2 hne
    by_cases ht2 : t2 = t
    · have hdt2 : dt2 ≠ dt := hne ht2
      subst ht2
      cases hl : lookupA s.immunity_data t2 with
      | none =>
        simp only [record_immunity, get_immunity_for_target_and_type, hl,
          lookupA_setA_self, lookupA_setA_ne _ _ _ _ hdt2, lookupA]
        simp [Ne.symm hdt2]
      | some m =>
        simp only [record_immunity, get_immunity_for_target_and_type, hl,
          lookupA_setA_self, lookupA_setA_ne _ _ _ _ hdt2]
    · unfold record_immunity get_immunity_for_target_and_type
      rw [lookupA_setA_ne _ _ _ _ ht2]

/-- Witness for C8 at a fresh store: recording 10 immunity with 20 damage for
(Goblin, Fire) sets both maxima together with sample_count 1, and the pair
(Goblin, Cold) is untouched. -/
theorem record_immunity_coupled_witness :
    ((get_immunity_for_target_and_type (⟨[], none, []⟩ : DataStore) "Goblin" "Fire").max_damage
        < 20 ∧
      (get_immunity_for_target_and_type
        (record_immunity ⟨[], none, []⟩ "Goblin" "Fire" 10 20) "Goblin" "Fire").max_damage = 20 ∧
      (get_immunity_for_target_and_type
        (record_immunity ⟨[], none, []⟩ "Goblin" "Fire" 10 20) "Goblin" "Fire").max_immunity = 10) ∧
    (("Goblin" : String) = "Goblin" → ("Cold" : String) ≠ "Fire") ∧
    get_immunity_for_target_and_type
        (record_immunity ⟨[], none, []⟩ "Goblin" "Fire" 10 20) "Goblin" "Cold" =
      get_immunity_for_target_and_type (⟨[], none, []⟩ : DataStore) "Goblin" "Cold" :=
  ⟨⟨by decide,
    (record_immunity_coupled ⟨[], none, []⟩ "Goblin" "Fire" 10 20).2.1 (by decide)⟩,
    fun _ => by decide,
    (record_immunity_coupled ⟨[], none, []⟩ "Goblin" "Fire" 10 20).2.2.2 "Goblin" "Cold"
      (fun _ => by decide)⟩

/-! ### src/app/monitor.py — LogDirectoryMonitor.read_new_lines

The monitor state is the tracked current file and the retained byte offset.
One poll observes the currently active file name (the newest-mtime candidate
returned by get_active_log_file) and the directory contents, modelled as a
map from file name to optional byte content; mtime bookkeeping and the debug
queue are outside the claims.  The three debug messages of the source become
the three output flags, and read_data is what readlines consumes from the
seek offset to the end of file; last_position afterwards is the end-of-file
position returned by tell. -/

structure LogDirectoryMonitor where
  current_log_file : Option String
  last_position : ℕ
deriving DecidableEq

structure PollOutput where
  rotation_message : Bool
  truncation_message : Bool
  cleared_message : Bool
  read_data : List Char
deriving DecidableEq

def read_new_lines (s : LogDirectoryMonitor) (active_file : Option String)
    (fs : String → Option (List Char)) : LogDirectoryMonitor × PollOutput :=
  let rotation : Bool := decide (active_file ≠ s.current_log_file)
  let cur := if rotation then active_file else s.current_log_file
  let pos0 := if rotation then 0 else s.last_position
  match cur with
  | none => (⟨cur, pos0⟩, ⟨rotation, false, false, []⟩)
  | some f =>
    match fs f with
    | none => (⟨cur, pos0⟩, ⟨rotation, false, false, []⟩)
    | some content =>
      let current_size := content.length
      let truncation : Bool := decide (current_size < pos0)
      let cleared : Bool := decide (¬ current_size < pos0 ∧ current_size = 0 ∧ 0 < pos0)
      let pos1 := if current_size < pos0 then 0
        else if current_size = 0 ∧ 0 < pos0 then 0
        else pos0
      (⟨cur, current_size⟩, ⟨rotation, truncation, cleared, content.drop pos1⟩)

/-- C9: on each poll, (a) an active file differing from the tracked current
file reports rotation with no truncation, makes the active file current and
restarts reading at offset 0; (b) the same file shrinking below the retained
offset reports truncation with no rotation, keeps the file selected and
re-reads from offset 0; (c) otherwise no signal is reported and exactly the
bytes appended after the retained offset are read, the offset advancing to
the end of file. -/
theorem read_new_lines_cases (s : LogDirectoryMonitor) (active : Option String)
    (fs : String → Option (List Char)) :
    (active ≠ s.current_log_file →
      (read_new_lines s active fs).2.rotation_message = true ∧
      (read_new_lines s active fs).2.truncation_message = false ∧
      (read_new_lines s active fs).1.current_log_file = active ∧
      (∀ f content, active = some f → fs f = some content →
        (read_new_lines s active fs).2.read_data = content ∧
        (read_new_lines s active fs).1.last_position = content.length)) ∧
    (active = s.current_log_file →
      (read_new_lines s active fs).2.rotation_message = false ∧
      ∀ f content, s.current_log_file = some f → fs f = some content →
        ((content.length < s.last_position →
          (read_new_lines s active fs).2.truncation_message = true ∧
          (read_new_lines s active fs).1.current_log_file = s.current_log_file ∧
          (read_new_lines s active fs).2.read_data = content) ∧
        (s.last_position ≤ content.length →
          (read_new_lines s active fs).2.truncation_message = false ∧
          (read_new_lines s active fs).2.read_data = content.drop s.last_position ∧
          (read_new_lines s active fs).1.last_position = content.length))) := by
  constructor
  · intro hrot
    cases active with
    | none =>
      refine ⟨by simp [read_new_lines, hrot], by simp [read_new_lines, hrot],
        by simp [read_new_lines, hrot], fun f content hf _ => absurd hf (by simp)⟩
    | some f =>
      cases hfs : fs f with
      | none =>
        refine ⟨by simp [read_new_lines, hrot, hfs], by simp [read_new_lines, hrot, hfs],
          by simp [read_new_lines, hrot, hfs], fun f2 content hf2 hc2 => ?_⟩
        obtain rfl : f = f2 := by injection hf2
        rw [hfs] at hc2
        exact absurd hc2 (by simp)
      | some content =>
        refine ⟨by simp [read_new_lines, hrot, hfs], by simp [read_new_lines, hrot, hfs],
          by simp [read_new_lines, hrot, hfs], fun f2 content2 hf2 hc2 => ?_⟩
        obtain rfl : f = f2 := by injection hf2
        rw [hfs] at hc2
        obtain rfl : content = content2 := by injection hc2
        constructor
        · simp [read_new_lines, hrot, hfs]
        · simp [read_new_lines, hrot, hfs]
  · intro heq
    subst heq
    refine ⟨?_, ?_⟩
    · cases hcur : s.current_log_file with
      | none => simp [read_new_lines, hcur]
      | some f =>
        cases hfs : fs f with
        | none => simp [read_new_lines, hcur, hfs]
        | some content => simp [read_new_lines, hcur, hfs]
    · intro f content hf hc
      constructor
      · intro hlt
        refine ⟨?_, ?_, ?_⟩ <;> simp [read_new_lines, hf, hc, hlt]
      · intro hle
        have h1 : ¬ content.length < s.last_position := not_lt.mpr hle
        have h2 : ¬ (content.length = 0 ∧ 0 < s.last_position) := by
          rintro ⟨h0, hp⟩
          omega
        have h3 : ¬ (content = [] ∧ 0 < s.last_position) := by
          rintro ⟨h0, hp⟩
          exact h2 ⟨by simp [h0], hp⟩
        refine ⟨?_, ?_, ?_⟩ <;> simp [read_new_lines, hf, hc, h1, h2, h3]

/-- Witness for C9: a poll that sees nwclientLog2 while nwclientLog1 is
tracked reports rotation only, and a poll that sees the tracked file shrunk
from offset 5 to 2 bytes reports truncation only and re-reads the file. -/
theorem read_new_lines_cases_witness :
    ((some "nwclientLog2.txt" : Option String) ≠ some "nwclientLog1.txt" ∧
      (read_new_lines ⟨some "nwclientLog1.txt", 5⟩ (some "nwclientLog2.txt")
        (fun f => if f = "nwclientLog2.txt" then some ['a', 'b'] else none)).2.rotation_message
        = true ∧
      (read_new_lines ⟨some "nwclientLog1.txt", 5⟩ (some "nwclientLog2.txt")
        (fun f => if f = "nwclientLog2.txt" then some ['a', 'b'] else none)).2.truncation_message
        = false ∧
      (read_new_lines ⟨some "nwclientLog1.txt", 5⟩ (some "nwclientLog2.txt")
        (fun f => if f = "nwclientLog2.txt" then some ['a', 'b'] else none)).1.current_log_file
        = some "nwclientLog2.txt") ∧
    ((['a', 'b'] : List Char).length < 5 ∧
      (read_new_lines ⟨some "nwclientLog1.txt", 5⟩ (some "nwclientLog1.txt")
        (fun f => if f = "nwclientLog1.txt" then some ['a', 'b'] else none)).2.truncation_message
        = true ∧
      (read_new_lines ⟨some "nwclientLog1.txt", 5⟩ (some "nwclientLog1.txt")
        (fun f => if f = "nwclientLog1.txt" then some ['a', 'b'] else none)).2.rotation_message
        = false ∧
      (read_new_lines ⟨some "nwclientLog1.txt", 5⟩ (some "nwclientLog1.txt")
        (fun f => if f = "nwclientLog1.txt" then some ['a', 'b'] else none)).2.read_data
        = ['a', 'b']) := by
  have ha := (read_new_lines_cases ⟨some "nwclientLog1.txt", 5⟩ (some "nwclientLog2.txt")
    (fun f => if f = "nwclientLog2.txt" then some ['a', 'b'] else none)).1 (by decide)
  have hb := (read_new_lines_cases ⟨some "nwclientLog1.txt", 5⟩ (some "nwclientLog1.txt")
    (fun f => if f = "nwclientLog1.txt" then some ['a', 'b'] else none)).2 rfl
  refine ⟨⟨by decide, ha.1, ha.2.1, ha.2.2.1⟩, ⟨by decide, ?_, hb.1, ?_⟩⟩
  · exact ((hb.2 "nwclientLog1.txt" ['a', 'b'] rfl (by decide)).1 (by decide)).1
  · exact ((hb.2 "nwclientLog1.txt" ['a', 'b'] rfl (by decide)).1 (by decide)).2.2
